import Mathlib

/-!
Verification of the `cmdline` argument-cursor library.

The development is a shallow embedding of `src/args.hpp`, `src/args.cpp`,
`src/parser.hpp` and `src/range_parser.h`:

* `args` mirrors the C++ class `cmdline::args` (fields `_args`,
  `_program_name`, `_index`, `_log`).  The `std::ostream *` log pointer is
  modelled by the abstract `LogSink` type: the identity of the stream is all
  the verified claims need; the text written to the stream is returned
  explicitly by the operations that write it.
* C++ member functions that mutate `*this` and may throw `std::out_of_range`
  are modelled in state-passing style, returning a pair of the
  `Except`-wrapped result and the post-call state of `*this`.  This keeps
  the partial mutation that C++ exception propagation leaves behind
  (important for `subcmd`, which mutates via `next()` before `subarg()` can
  throw).
* `operator>>(args&, T&)` (src/parser.hpp) is instantiated at integer
  targets, the type used by the specification's examples.  The
  `std::stringstream` extraction is modelled by `readIntFrom`, following the
  C++11 `num_get` protocol: skip whitespace, optional sign, a non-empty run
  of decimal digits; on failure the stream writes the value `0` to the
  target and sets `failbit`.  Mathematical integers stand in for the machine
  integer (overflow clamping of `num_get` is outside the claims considered
  here).
* `RangeParse` (src/range_parser.h) stores two `double` fields, but both
  of its constructors take `long long` parameters, so the stored values are
  always integral; they are modelled as `Int` (exact for every value the
  library can reach below 2^53).  The `double → long long` conversion
  performed when `args::range(double…)` calls those constructors is
  `truncQ`, truncation toward zero, with `ℚ` standing in for the `double`
  argument domain.
* `std::size_t` index arithmetic in `peek(int)` (`_index + index` with a
  negative `index` converted to `size_t`) is modelled by arithmetic
  modulo 2^64.
-/

/-- Identity of an output stream, abstracting `std::ostream *`.
`cerr` is `&std::cerr`; `custom i` is any other stream installed via
`args::log(std::ostream&)`. -/
inductive LogSink where
  | cerr : LogSink
  | custom : Nat → LogSink
deriving DecidableEq

/-- The only exception type thrown by the library: `std::out_of_range`
with its message. -/
inductive CmdError where
  | out_of_range : String → CmdError
deriving DecidableEq

/-- Embeds `cmdline::args` (src/args.hpp lines 27–33): a vector of strings, a
program name, a cursor index and a log-stream pointer. -/
structure args where
  _args : List String
  _program_name : String
  _index : Nat
  _log : LogSink
deriving DecidableEq

/-- Embeds `args::args()` (src/args.cpp lines 19–22): `_index = 0`,
`_log = &std::cerr`; `_args` and `_program_name` are default-constructed
empty. -/
def args.empty : args := ⟨[], "", 0, LogSink.cerr⟩

/-- Embeds `args::args(int argc, char const* const* argv)` (src/args.cpp
lines 9–17): `argv[0]` becomes the program name, the remaining entries
become `_args`, `_index = 0`, `_log = &std::cerr`.  The C++ precondition
`argc ≥ 1` is expressed by taking the name and the rest separately. -/
def args.ofArgv (name : String) (rest : List String) : args :=
  ⟨rest, name, 0, LogSink.cerr⟩

/-- Embeds `args::size()` (src/args.cpp lines 24–26): `_args.size() - _index`. -/
def args.size (a : args) : Nat := a._args.length - a._index

/-- Embeds `args::total_size()` (src/args.cpp lines 28–30). -/
def args.total_size (a : args) : Nat := a._args.length

/-- Embeds `args::peek()` (src/args.cpp lines 32–37). -/
def args.peek (a : args) : Except CmdError String :=
  if a._index ≥ a._args.length then
    .error (.out_of_range "No argument left to peek.")
  else
    .ok (a._args.getD a._index "")

/-- Embeds `args::peek(int index)` (src/args.cpp lines 39–46).  The C++
computation `_index + index` happens in `std::size_t`, i.e. modulo 2^64;
a negative offset wraps to a huge value caught by the first bounds check.
The second C++ check (`_index + index < 0`) compares an unsigned value
with zero and is always false, so it is not modelled. -/
def args.peekAt (a : args) (index : Int) : Except CmdError String :=
  let pos : Nat := (((a._index : Int) + index) % (2 ^ 64 : Int)).toNat
  if pos ≥ a._args.length then
    .error (.out_of_range "Argument vector too short.")
  else
    .ok (a._args.getD pos "")

/-- Embeds `args::shift()` (src/args.cpp lines 48–53); the returned `args` is the
state of `*this` after the call (unchanged when the call throws). -/
def shiftImpl (a : args) : Except CmdError Unit × args :=
  if a._index ≥ a._args.length then
    (.error (.out_of_range "No arguments left to shift."), a)
  else
    (.ok (), { a with _index := a._index + 1 })

/-- Embeds `args::next()` (src/args.cpp lines 55–60): `peek()` then `shift()`,
returning the peeked string.  When `peek` succeeds `shift` cannot fail. -/
def nextImpl (a : args) : Except CmdError String × args :=
  match a.peek with
  | .error e => (.error e, a)
  | .ok ret => (.ok ret, (shiftImpl a).2)

/-- Embeds `args::push_back` (src/args.cpp lines 62–64). -/
def args.push_back (a : args) (str : String) : args :=
  { a with _args := a._args ++ [str] }

/-- Embeds `args::log(std::ostream&)` (src/args.cpp lines 114–116). -/
def args.set_log (a : args) (l : LogSink) : args := { a with _log := l }

/-- Embeds `args::subarg(std::size_t size)` (src/args.cpp lines 74–85): bounds
check `_index + size >= _args.size() + 1` before any mutation; on success
the child is a default-constructed `args` whose `_args` is the vector
slice `[_index, _index + size)`, and `_index` advances by `size`. -/
def subargImpl (a : args) (size : Nat) : Except CmdError args × args :=
  if a._index + size ≥ a._args.length + 1 then
    (.error (.out_of_range "Not enough arguments to form subarg."), a)
  else
    (.ok { args.empty with _args := (a._args.drop a._index).take size },
     { a with _index := a._index + size })

/-- Embeds `args::subarg_until` (src/args.cpp lines 87–98): scan from `_index`
until the predicate holds or the vector ends; the scanned tokens form the
child and `_index` advances past them.  Never throws. -/
def subargUntilImpl (a : args) (p : String → Bool) : args × args :=
  let taken := (a._args.drop a._index).takeWhile (fun s => ! p s)
  ({ args.empty with _args := taken },
   { a with _index := a._index + taken.length })

/-- Embeds `args::subcmd(std::size_t size)` (src/args.cpp lines 100–105):
`next()` then `subarg(size)`, attaching the consumed token as the child's
program name.  If `subarg` throws, the mutation already performed by
`next()` (the cursor advance) persists in `*this`, which the second
component records. -/
def subcmdImpl (a : args) (size : Nat) : Except CmdError args × args :=
  match nextImpl a with
  | (.error e, a₁) => (.error e, a₁)
  | (.ok name, a₁) =>
    match subargImpl a₁ size with
    | (.error e, a₂) => (.error e, a₂)
    | (.ok ret, a₂) => (.ok { ret with _program_name := name }, a₂)

/-- Embeds `args::subcmd_until` (src/args.cpp lines 107–112). -/
def subcmdUntilImpl (a : args) (p : String → Bool) : Except CmdError args × args :=
  match nextImpl a with
  | (.error e, a₁) => (.error e, a₁)
  | (.ok name, a₁) =>
    let r := subargUntilImpl a₁ p
    (.ok { r.1 with _program_name := name }, r.2)

/-- Embeds `isspace` in the default C locale, used by `std::stringstream`
whitespace skipping. -/
def isCppSpace (c : Char) : Bool :=
  c = ' ' || c = '\t' || c = '\n' || c = '\x0b' || c = '\x0c' || c = '\r'

/-- Value of a run of decimal digits. -/
def digitsToNat (ds : List Char) : Nat :=
  ds.foldl (fun acc c => acc * 10 + (c.toNat - 48)) 0

/-- Embeds `std::stringstream >> int` on the full token text (C++11 `num_get`
decimal protocol): skip whitespace, optional sign, a non-empty digit run.
Returns the parsed value and the total number of characters consumed, or
`none` when no digit could be read (extraction failure). -/
def readIntFrom (cs : List Char) : Option (Int × Nat) :=
  let ws := cs.takeWhile isCppSpace
  let rest := cs.drop ws.length
  let signLen : Nat :=
    match rest with
    | '-' :: _ => 1
    | '+' :: _ => 1
    | _ => 0
  let neg : Bool :=
    match rest with
    | '-' :: _ => true
    | _ => false
  let ds := (rest.drop signLen).takeWhile Char.isDigit
  if ds.isEmpty then none
  else
    some (if neg then -(digitsToNat ds : Int) else (digitsToNat ds : Int),
      ws.length + signLen + ds.length)

/-- Embeds `operator>>(args& a, T& t)` (src/parser.hpp lines 27–42) instantiated
at integer targets.  Components of the result: the `Except` outcome of the
call (it throws only when `a.next()` throws), the state of `a` after the
call, the value of `t` after the call, and the text written to `a.log()`.

Branches, in source order:
* `a.next()` throws: the exception propagates, `t` is untouched, nothing
  is logged.
* `!stream` (extraction failed): C++11 stream extraction writes `0` to
  `t` and the function logs `"Error: could not parse <token>.\n"`.
* `!stream.eof()` (extraction stopped before the end of the token):
  `t` holds the parsed value and the unparsed tail
  `stream.str().substr(stream.tellg())` is logged.
* otherwise: clean parse, no log output. -/
def extractIntImpl (a : args) (t : Int) :
    Except CmdError Unit × args × Int × List String :=
  match nextImpl a with
  | (.error e, a₁) => (.error e, a₁, t, [])
  | (.ok tok, a₁) =>
    match readIntFrom tok.data with
    | none => (.ok (), a₁, 0, ["Error: could not parse " ++ tok ++ ".\n"])
    | some (v, k) =>
      if k = tok.length then (.ok (), a₁, v, [])
      else
        (.ok (), a₁, v,
         ["Warning: partially parsed string\nUnparsed bit: \x27"
           ++ (tok.data.drop k).asString ++ "\x27\n"])

/-- Embeds `cmdline::RangeParse` (src/range_parser.h lines 20–37).  The C++
fields are `double`, but both constructors take `long long` parameters, so
the stored values are always integral and are modelled as `Int`. -/
structure RangeParse where
  min : Int
  max : Int
deriving DecidableEq

/-- The `double → long long` conversion applied when `args::range(double…)`
passes its arguments to the `RangeParse(args&, long long, long long)`
constructor: truncation toward zero.  `ℚ` stands in for the `double`
domain. -/
def truncQ (q : ℚ) : Int := Int.tdiv q.num (q.den : Int)

/-- Embeds `args::range(double min, double max)` (src/args.cpp lines 70–72):
forwards to `RangeParse(*this, min, max)`, whose `long long` parameters
truncate the doubles.  The C++ object also captures `*this` by reference;
that reference is passed explicitly to `rangedExtractImpl` below. -/
def args.range2 (min max : ℚ) : RangeParse := ⟨truncQ min, truncQ max⟩

/-- Embeds `args::range(double min)` (src/args.cpp lines 66–68): the one-argument
`RangeParse` constructor sets `max = min`. -/
def args.range1 (min : ℚ) : RangeParse := ⟨truncQ min, truncQ min⟩

/-- The `error` message head built at the top of
`operator>>(RangeParse&&, Number&)` (src/parser.hpp lines 46–50),
computed from the cursor state *before* the extraction consumes a token. -/
def rangedErrorHead (a : args) : String :=
  if a.size < a.total_size then
    "Error: argument to " ++
      (match a.peekAt (-1) with
       | .ok s => s
       | .error _ => "")
  else
    "Error: number"

/-- Embeds `operator>>(RangeParse&& range, Number& n)` (src/parser.hpp
lines 44–61) instantiated at integer targets.  Builds the message head,
runs `range._args >> n`, then performs the two independent range checks
on the post-extraction value of `n` (which is `0` when the extraction
failed).  `(Number) range.min` in the messages is the `double → Number`
cast; on the integral stored bounds it is the identity. -/
def rangedExtractImpl (r : RangeParse) (a : args) (n : Int) :
    Except CmdError Unit × args × Int × List String :=
  let error := rangedErrorHead a
  match extractIntImpl a n with
  | (.error e, a₁, n₁, _) => (.error e, a₁, n₁, [])
  | (.ok _, a₁, n₁, logs) =>
    let logs1 :=
      if n₁ < r.min then
        logs ++ [error ++ " must be greater than " ++ toString r.min ++ ".\n"]
      else logs
    let logs2 :=
      if r.min < r.max ∧ r.max < n₁ then
        logs1 ++ [error ++ " must be smaller than " ++ toString r.max ++ ".\n"]
      else logs1
    (.ok (), a₁, n₁, logs2)

/-- The cursor invariant: the index never exceeds the token count. -/
def argsInv (a : args) : Prop := a._index ≤ a._args.length

/-- One mutating operation applied to a cursor: relates the state of the
object before the call to its state after the call (also when the call
throws). -/
inductive ArgsStep : args → args → Prop
  | peek (a : args) : ArgsStep a a
  | peekAt (a : args) (i : Int) : ArgsStep a a
  | shift (a : args) : ArgsStep a (shiftImpl a).2
  | next (a : args) : ArgsStep a (nextImpl a).2
  | push_back (a : args) (s : String) : ArgsStep a (a.push_back s)
  | set_log (a : args) (l : LogSink) : ArgsStep a (a.set_log l)
  | subarg (a : args) (n : Nat) : ArgsStep a (subargImpl a n).2
  | subarg_until (a : args) (p : String → Bool) : ArgsStep a (subargUntilImpl a p).2
  | subcmd (a : args) (n : Nat) : ArgsStep a (subcmdImpl a n).2
  | subcmd_until (a : args) (p : String → Bool) : ArgsStep a (subcmdUntilImpl a p).2
  | extract (a : args) (t : Int) : ArgsStep a (extractIntImpl a t).2.1
  | ranged_extract (r : RangeParse) (a : args) (t : Int) :
      ArgsStep a (rangedExtractImpl r a t).2.1

/-- A child cursor produced by one of the slicing operations. -/
inductive ArgsChild : args → args → Prop
  | subarg (a : args) (n : Nat) (c : args) :
      (subargImpl a n).1 = .ok c → ArgsChild a c
  | subarg_until (a : args) (p : String → Bool) :
      ArgsChild a (subargUntilImpl a p).1
  | subcmd (a : args) (n : Nat) (c : args) :
      (subcmdImpl a n).1 = .ok c → ArgsChild a c
  | subcmd_until (a : args) (p : String → Bool) (c : args) :
      (subcmdUntilImpl a p).1 = .ok c → ArgsChild a c

/-- Cursors reachable from the two constructors by any sequence of
operations, including extraction of child cursors. -/
inductive ArgsReachable : args → Prop
  | ofArgv (name : String) (rest : List String) :
      ArgsReachable (args.ofArgv name rest)
  | empty : ArgsReachable args.empty
  | step {a b : args} : ArgsReachable a → ArgsStep a b → ArgsReachable b
  | child {a c : args} : ArgsReachable a → ArgsChild a c → ArgsReachable c

-- Helper lemmas ------------------------------------------------------------

theorem lem_peek_ok (a : args) (tok : String) (hp : a.peek = .ok tok) :
    a._index < a._args.length ∧ a._args.getD a._index "" = tok := by
  unfold args.peek at hp
  by_cases h : a._index ≥ a._args.length
  · rw [if_pos h] at hp
    exact absurd hp (by simp)
  · rw [if_neg h] at hp
    exact ⟨by omega, Except.ok.inj hp⟩

theorem lem_next_ok (a : args) (h : a._index < a._args.length) :
    nextImpl a =
      (.ok (a._args.getD a._index ""), { a with _index := a._index + 1 }) := by
  have h' : ¬ a._index ≥ a._args.length := by omega
  simp [nextImpl, args.peek, shiftImpl, h']

theorem lem_next_err (a : args) (h : a._args.length ≤ a._index) :
    nextImpl a = (.error (.out_of_range "No argument left to peek."), a) := by
  have h' : a._index ≥ a._args.length := h
  simp [nextImpl, args.peek, h']

theorem lem_takeWhile_len {α : Type} (p : α → Bool) (l : List α) :
    (l.takeWhile p).length ≤ l.length := by
  induction l with
  | nil => simp
  | cons x xs ih =>
    by_cases hx : p x <;> simp [List.takeWhile_cons, hx]
    omega

theorem lem_extract_state (a : args) (t : Int) :
    (extractIntImpl a t).2.1 = (nextImpl a).2 := by
  unfold extractIntImpl
  rcases h : nextImpl a with ⟨res, a₁⟩
  cases res with
  | error e => simp
  | ok tok =>
    cases h2 : readIntFrom tok.data with
    | none => simp [h2]
    | some vk =>
      rcases vk with ⟨v, k⟩
      by_cases hk : k = tok.length <;> simp [h2, hk]

theorem lem_ranged_state (r : RangeParse) (a : args) (t : Int) :
    (rangedExtractImpl r a t).2.1 = (extractIntImpl a t).2.1 := by
  unfold rangedExtractImpl
  rcases h : extractIntImpl a t with ⟨res, a₁, n₁, logs⟩
  cases res <;> simp

theorem lem_next_state (a : args) : (nextImpl a).2 = (shiftImpl a).2 := by
  unfold nextImpl args.peek shiftImpl
  by_cases h : a._index ≥ a._args.length <;> simp [h]

theorem lem_inv_shift (a : args) (h : argsInv a) : argsInv (shiftImpl a).2 := by
  unfold argsInv at *
  unfold shiftImpl
  by_cases hc : a._index ≥ a._args.length
  · rw [if_pos hc]; exact h
  · rw [if_neg hc]; simp; omega

theorem lem_mono_shift (a : args) : a._index ≤ (shiftImpl a).2._index := by
  unfold shiftImpl
  by_cases hc : a._index ≥ a._args.length <;> simp [hc]

theorem lem_inv_subarg (a : args) (n : Nat) (h : argsInv a) :
    argsInv (subargImpl a n).2 := by
  unfold argsInv at *
  unfold subargImpl
  by_cases hc : a._index + n ≥ a._args.length + 1
  · rw [if_pos hc]; exact h
  · rw [if_neg hc]; simp; omega

theorem lem_mono_subarg (a : args) (n : Nat) :
    a._index ≤ (subargImpl a n).2._index := by
  unfold subargImpl
  by_cases hc : a._index + n ≥ a._args.length + 1 <;> simp [hc]

theorem lem_inv_subarg_until (a : args) (p : String → Bool) (h : argsInv a) :
    argsInv (subargUntilImpl a p).2 := by
  have hw := lem_takeWhile_len (fun s => ! p s) (a._args.drop a._index)
  unfold argsInv at *
  simp [subargUntilImpl]
  simp [List.length_drop] at hw
  omega

theorem lem_mono_subarg_until (a : args) (p : String → Bool) :
    a._index ≤ (subargUntilImpl a p).2._index := by
  simp [subargUntilImpl]

theorem lem_inv_next (a : args) (h : argsInv a) : argsInv (nextImpl a).2 := by
  rw [lem_next_state]; exact lem_inv_shift a h

theorem lem_mono_next (a : args) : a._index ≤ (nextImpl a).2._index := by
  rw [lem_next_state]; exact lem_mono_shift a

theorem lem_subcmd_state (a : args) (n : Nat) :
    (subcmdImpl a n).2 = (subargImpl (nextImpl a).2 n).2 ∨
      (subcmdImpl a n).2 = (nextImpl a).2 := by
  unfold subcmdImpl
  rcases h : nextImpl a with ⟨res, a₁⟩
  cases res with
  | error e => right; simp
  | ok nm =>
    left
    rcases h2 : subargImpl a₁ n with ⟨res₂, a₂⟩
    cases res₂ <;> simp [h2]

theorem lem_inv_subcmd (a : args) (n : Nat) (h : argsInv a) :
    argsInv (subcmdImpl a n).2 := by
  rcases lem_subcmd_state a n with hs | hs <;> rw [hs]
  · exact lem_inv_subarg _ n (lem_inv_next a h)
  · exact lem_inv_next a h

theorem lem_mono_subcmd (a : args) (n : Nat) :
    a._index ≤ (subcmdImpl a n).2._index := by
  rcases lem_subcmd_state a n with hs | hs <;> rw [hs]
  · exact le_trans (lem_mono_next a) (lem_mono_subarg _ n)
  · exact lem_mono_next a

theorem lem_subcmd_until_state (a : args) (p : String → Bool) :
    (subcmdUntilImpl a p).2 = (subargUntilImpl (nextImpl a).2 p).2 ∨
      (subcmdUntilImpl a p).2 = (nextImpl a).2 := by
  unfold subcmdUntilImpl
  rcases h : nextImpl a with ⟨res, a₁⟩
  cases res with
  | error e => right; simp
  | ok nm => left; simp

theorem lem_inv_subcmd_until (a : args) (p : String → Bool) (h : argsInv a) :
    argsInv (subcmdUntilImpl a p).2 := by
  rcases lem_subcmd_until_state a p with hs | hs <;> rw [hs]
  · exact lem_inv_subarg_until _ p (lem_inv_next a h)
  · exact lem_inv_next a h

theorem lem_mono_subcmd_until (a : args) (p : String → Bool) :
    a._index ≤ (subcmdUntilImpl a p).2._index := by
  rcases lem_subcmd_until_state a p with hs | hs <;> rw [hs]
  · exact le_trans (lem_mono_next a) (lem_mono_subarg_until _ p)
  · exact lem_mono_next a

theorem lem_subarg_child (a : args) (n : Nat) (c : args)
    (hc : (subargImpl a n).1 = .ok c) :
    c = ⟨(a._args.drop a._index).take n, "", 0, LogSink.cerr⟩ := by
  unfold subargImpl at hc
  by_cases h : a._index + n ≥ a._args.length + 1
  · rw [if_pos h] at hc; exact absurd hc (by simp)
  · rw [if_neg h] at hc
    simp at hc
    exact hc.symm

theorem lem_subarg_until_child (a : args) (p : String → Bool) :
    (subargUntilImpl a p).1 =
      ⟨(a._args.drop a._index).takeWhile (fun s => ! p s), "", 0,
       LogSink.cerr⟩ := rfl

theorem lem_next_ok_inv (a : args) (nm : String) (a₁ : args)
    (h : nextImpl a = (.ok nm, a₁)) :
    a._index < a._args.length ∧ nm = a._args.getD a._index "" ∧
      a₁ = { a with _index := a._index + 1 } := by
  rcases h3 : a.peek with e | s
  · unfold nextImpl at h; rw [h3] at h; simp at h
  · have hp := lem_peek_ok a s h3
    unfold nextImpl at h
    rw [h3] at h
    have h' : ¬ a._index ≥ a._args.length := by omega
    simp [shiftImpl, h'] at h
    exact ⟨hp.1, by rw [← h.1, hp.2], h.2.symm⟩

theorem lem_subcmd_child (a : args) (n : Nat) (c : args)
    (hc : (subcmdImpl a n).1 = .ok c) :
    c._index = 0 ∧ c._log = LogSink.cerr ∧
      c._program_name = a._args.getD a._index "" := by
  unfold subcmdImpl at hc
  rcases h1 : nextImpl a with ⟨res, a₁⟩
  rw [h1] at hc
  cases res with
  | error e => exact absurd hc (by simp)
  | ok nm =>
    dsimp only at hc
    rcases h2 : subargImpl a₁ n with ⟨res₂, a₂⟩
    rw [h2] at hc
    cases res₂ with
    | error e => exact absurd hc (by simp)
    | ok ch =>
      simp at hc
      have hch := lem_subarg_child a₁ n ch (by rw [h2])
      have hnm := lem_next_ok_inv a nm a₁ h1
      rw [← hc, hch]
      exact ⟨rfl, rfl, hnm.2.1⟩

theorem lem_subcmd_until_child (a : args) (p : String → Bool) (c : args)
    (hc : (subcmdUntilImpl a p).1 = .ok c) :
    c._index = 0 ∧ c._log = LogSink.cerr ∧
      c._program_name = a._args.getD a._index "" := by
  unfold subcmdUntilImpl at hc
  rcases h1 : nextImpl a with ⟨res, a₁⟩
  rw [h1] at hc
  cases res with
  | error e => exact absurd hc (by simp)
  | ok nm =>
    dsimp only at hc
    simp at hc
    have hnm := lem_next_ok_inv a nm a₁ h1
    rw [← hc, lem_subarg_until_child]
    exact ⟨rfl, rfl, hnm.2.1⟩

theorem lem_inv_step (a b : args) (h : argsInv a) (hs : ArgsStep a b) :
    argsInv b := by
  cases hs with
  | peek a => exact h
  | peekAt a i => exact h
  | shift a => exact lem_inv_shift a h
  | next a => exact lem_inv_next a h
  | push_back a s =>
    unfold argsInv at *
    simp [args.push_back]
    omega
  | set_log a l => exact h
  | subarg a n => exact lem_inv_subarg a n h
  | subarg_until a p => exact lem_inv_subarg_until a p h
  | subcmd a n => exact lem_inv_subcmd a n h
  | subcmd_until a p => exact lem_inv_subcmd_until a p h
  | extract a t =>
    rw [lem_extract_state]; exact lem_inv_next a h
  | ranged_extract r a t =>
    rw [lem_ranged_state, lem_extract_state]; exact lem_inv_next a h

theorem lem_mono_step (a b : args) (hs : ArgsStep a b) :
    a._index ≤ b._index := by
  cases hs with
  | peek a => exact le_refl _
  | peekAt a i => exact le_refl _
  | shift a => exact lem_mono_shift a
  | next a => exact lem_mono_next a
  | push_back a s => exact le_refl _
  | set_log a l => exact le_refl _
  | subarg a n => exact lem_mono_subarg a n
  | subarg_until a p => exact lem_mono_subarg_until a p
  | subcmd a n => exact lem_mono_subcmd a n
  | subcmd_until a p => exact lem_mono_subcmd_until a p
  | extract a t =>
    rw [lem_extract_state]; exact lem_mono_next a
  | ranged_extract r a t =>
    rw [lem_ranged_state, lem_extract_state]; exact lem_mono_next a

theorem lem_child_inv (a c : args) (hc : ArgsChild a c) : argsInv c := by
  cases hc with
  | subarg n c h =>
    rw [lem_subarg_child a n c h]
    unfold argsInv
    simp
  | subarg_until p =>
    rw [lem_subarg_until_child a p]
    unfold argsInv
    simp
  | subcmd n c h =>
    unfold argsInv
    rw [(lem_subcmd_child a n c h).1]
    simp
  | subcmd_until p c h =>
    unfold argsInv
    rw [(lem_subcmd_until_child a p c h).1]
    simp

theorem lem_extract_fail_eq (a : args) (t : Int) (tok : String)
    (hp : a.peek = .ok tok) (hf : readIntFrom tok.data = none) :
    extractIntImpl a t =
      (.ok (), { a with _index := a._index + 1 }, 0,
       ["Error: could not parse " ++ tok ++ ".\n"]) := by
  have hlt := (lem_peek_ok a tok hp).1
  have htok := (lem_peek_ok a tok hp).2
  rw [extractIntImpl, lem_next_ok a hlt, htok]
  dsimp only
  rw [hf]

theorem lem_extract_some_eq (a : args) (t : Int) (tok : String) (v : Int)
    (k : Nat) (hp : a.peek = .ok tok)
    (hr : readIntFrom tok.data = some (v, k)) :
    extractIntImpl a t =
      (.ok (), { a with _index := a._index + 1 }, v,
       if k = tok.length then []
       else
         ["Warning: partially parsed string\nUnparsed bit: \x27"
           ++ (tok.data.drop k).asString ++ "\x27\n"]) := by
  have hlt := (lem_peek_ok a tok hp).1
  have htok := (lem_peek_ok a tok hp).2
  rw [extractIntImpl, lem_next_ok a hlt, htok]
  dsimp only
  rw [hr]
  by_cases hk : k = tok.length <;> simp [hk]

theorem lem_extract_ok (a : args) (t : Int) (hs : 1 ≤ a.size) :
    (extractIntImpl a t).1 = .ok () := by
  have hlt : a._index < a._args.length := by
    unfold args.size at hs; omega
  have hp : a.peek = .ok (a._args.getD a._index "") := by
    unfold args.peek
    rw [if_neg (by omega)]
  cases hr : readIntFrom (a._args.getD a._index "").data with
  | none => rw [lem_extract_fail_eq a t _ hp hr]
  | some vk =>
    rcases vk with ⟨v, k⟩
    rw [lem_extract_some_eq a t _ v k hp hr]

theorem lem_ranged_eq (r : RangeParse) (a : args) (t : Int)
    (hs : 1 ≤ a.size) :
    rangedExtractImpl r a t =
      (.ok (), (extractIntImpl a t).2.1, (extractIntImpl a t).2.2.1,
       (extractIntImpl a t).2.2.2
       ++ (if (extractIntImpl a t).2.2.1 < r.min then
             [rangedErrorHead a ++ " must be greater than "
               ++ toString r.min ++ ".\n"]
           else [])
       ++ (if r.min < r.max ∧ r.max < (extractIntImpl a t).2.2.1 then
             [rangedErrorHead a ++ " must be smaller than "
               ++ toString r.max ++ ".\n"]
           else [])) := by
  have hok := lem_extract_ok a t hs
  rcases hE : extractIntImpl a t with ⟨res, a₁, n₁, logs⟩
  rw [hE] at hok
  simp at hok
  subst hok
  rw [rangedExtractImpl, hE]
  dsimp only
  by_cases h1 : n₁ < r.min <;>
    by_cases h2 : r.min < r.max ∧ r.max < n₁ <;>
      simp [h1, h2]

theorem lem_head_zero (a : args) (h0 : a._index = 0) :
    rangedErrorHead a = "Error: number" := by
  unfold rangedErrorHead args.size args.total_size
  rw [if_neg (by omega)]

theorem lem_head_pos (a : args) (h : argsInv a)
    (hlen : a._args.length < 2 ^ 64) (k : Nat) (hk : a._index = k + 1) :
    rangedErrorHead a = "Error: argument to " ++ a._args.getD k "" := by
  have hkl : k < a._args.length := by unfold argsInv at h; omega
  have hk64 : (k : Int) < 2 ^ 64 := by
    have hx : k < 2 ^ 64 := lt_trans hkl hlen
    exact_mod_cast hx
  have hpos : (((a._index : Int) + (-1)) % (2 ^ 64 : Int)).toNat = k := by
    rw [hk]
    have h1 : ((k + 1 : Nat) : Int) + (-1) = (k : Int) := by push_cast; ring
    rw [h1, Int.emod_eq_of_lt (by positivity) hk64]
    simp
  have hpeek : a.peekAt (-1) = .ok (a._args.getD k "") := by
    unfold args.peekAt
    dsimp only
    rw [hpos, if_neg (by omega)]
  unfold rangedErrorHead args.size args.total_size
  rw [if_pos (by omega), hpeek]

theorem lem_subarg_ok_eq (a : args) (n : Nat)
    (hn : a._index + n ≤ a._args.length) :
    subargImpl a n =
      (.ok ⟨(a._args.drop a._index).take n, "", 0, LogSink.cerr⟩,
       { a with _index := a._index + n }) := by
  unfold subargImpl
  rw [if_neg (by omega)]
  rfl

-- Claim theorems ------------------------------------------------------------

/-- C1: the claim states that a failed `subcmd(size)` leaves the cursor
position unchanged.  The code violates this (and the strong
exception-safety guarantee promised at the top of src/args.hpp): on a
cursor holding the single token "a", `subcmd(1)` throws `out_of_range`
from the inner `subarg`, but the cursor position has already been advanced
from 0 to 1 by the inner `next()`. -/
theorem spec_c1_subcmd_not_atomic :
    (subcmdImpl (args.ofArgv "prog" ["a"]) 1).1 =
      Except.error (CmdError.out_of_range "Not enough arguments to form subarg.")
    ∧ (args.ofArgv "prog" ["a"])._index = 0
    ∧ (subcmdImpl (args.ofArgv "prog" ["a"]) 1).2._index = 1 :=
  ⟨rfl, rfl, rfl⟩

/-- C3: `subarg(size)` succeeds exactly when `size ≤ size()`: on success it
returns a child holding precisely the `size` tokens starting at the cursor
position, with empty program name, and advances the parent by `size`; with
fewer than `size` tokens remaining it throws `out_of_range` and the parent
is unchanged. -/
theorem spec_c3_slice (a : args) (n : Nat) (h : argsInv a) :
    (n ≤ a.size →
       subargImpl a n =
         (.ok ⟨(a._args.drop a._index).take n, "", 0, LogSink.cerr⟩,
          { a with _index := a._index + n })
       ∧ ((a._args.drop a._index).take n).length = n)
    ∧ (a.size < n →
       subargImpl a n =
         (.error (.out_of_range "Not enough arguments to form subarg."), a)) := by
  unfold argsInv at h
  unfold args.size
  constructor
  · intro hn
    refine ⟨lem_subarg_ok_eq a n (by omega), ?_⟩
    simp [List.length_take, List.length_drop]
    omega
  · intro hn
    unfold subargImpl
    rw [if_pos (by omega)]

/-- C3 witness: a concrete three-token cursor sliced at size two. -/
theorem spec_c3_witness :
    subargImpl (args.ofArgv "p" ["a", "b", "c"]) 2 =
      (.ok ⟨["a", "b"], "", 0, LogSink.cerr⟩,
       ⟨["a", "b", "c"], "p", 2, LogSink.cerr⟩)
    ∧ (["a", "b"] : List String).length = 2 :=
  ((spec_c3_slice (args.ofArgv "p" ["a", "b", "c"]) 2 (by unfold argsInv; decide)).1
    (by decide))

/-- C7: with at least `size + 1` tokens remaining, `subcmd(size)` succeeds,
advances the parent by exactly `size + 1`, and returns a child whose
program name is the token at the original cursor position and whose tokens
are exactly the `size` tokens that followed it. -/
theorem spec_c7_subcmd (a : args) (n : Nat) (h : argsInv a)
    (hn : n + 1 ≤ a.size) :
    subcmdImpl a n =
      (.ok ⟨(a._args.drop (a._index + 1)).take n, a._args.getD a._index "",
            0, LogSink.cerr⟩,
       { a with _index := a._index + 1 + n })
    ∧ (subcmdImpl a n).2._index = a._index + (n + 1)
    ∧ ((a._args.drop (a._index + 1)).take n).length = n := by
  unfold argsInv at h
  unfold args.size at hn
  have hlt : a._index < a._args.length := by omega
  have hmain : subcmdImpl a n =
      (.ok ⟨(a._args.drop (a._index + 1)).take n, a._args.getD a._index "",
            0, LogSink.cerr⟩,
       { a with _index := a._index + 1 + n }) := by
    rw [subcmdImpl, lem_next_ok a hlt]
    dsimp only
    rw [lem_subarg_ok_eq { a with _index := a._index + 1 } n
      (by show a._index + 1 + n ≤ a._args.length; omega)]
  refine ⟨hmain, ?_, ?_⟩
  · rw [hmain]
    show a._index + 1 + n = a._index + (n + 1)
    omega
  · simp [List.length_take, List.length_drop]
    omega

/-- C7 witness: `subcmd(1)` on the cursor `["cmd", "x", "y"]`. -/
theorem spec_c7_witness :
    subcmdImpl (args.ofArgv "p" ["cmd", "x", "y"]) 1 =
      (.ok ⟨["x"], "cmd", 0, LogSink.cerr⟩,
       ⟨["cmd", "x", "y"], "p", 2, LogSink.cerr⟩)
    ∧ (subcmdImpl (args.ofArgv "p" ["cmd", "x", "y"]) 1).2._index = 0 + (1 + 1)
    ∧ (["x"] : List String).length = 1 :=
  spec_c7_subcmd (args.ofArgv "p" ["cmd", "x", "y"]) 1 (by unfold argsInv; decide)
    (by decide)

/-- C8: every cursor reachable by any sequence of operations satisfies the
invariant `_index ≤ length _args` (hence `size() + _index = total_size()`),
and no operation ever decreases the cursor position. -/
theorem spec_c8_invariant :
    (∀ a : args, ArgsReachable a →
       argsInv a ∧ a.size + a._index = a.total_size)
    ∧ ∀ a b : args, ArgsStep a b → a._index ≤ b._index := by
  constructor
  · intro a h
    have hinv : argsInv a := by
      induction h with
      | ofArgv name rest => exact Nat.zero_le _
      | empty => exact Nat.zero_le _
      | step hr hs ih => exact lem_inv_step _ _ ih hs
      | child hr hc ih => exact lem_child_inv _ _ hc
    refine ⟨hinv, ?_⟩
    unfold argsInv at hinv
    unfold args.size args.total_size
    omega
  · intro a b hs
    exact lem_mono_step a b hs

/-- C8 witness: the invariant instantiated on a concrete constructed
cursor, and monotonicity on a concrete shift step. -/
theorem spec_c8_witness :
    (argsInv (args.ofArgv "p" ["x", "y"])
      ∧ (args.ofArgv "p" ["x", "y"]).size + (args.ofArgv "p" ["x", "y"])._index
          = (args.ofArgv "p" ["x", "y"]).total_size)
    ∧ (args.ofArgv "p" ["x", "y"])._index ≤
        (shiftImpl (args.ofArgv "p" ["x", "y"])).2._index :=
  ⟨(spec_c8_invariant.1 (args.ofArgv "p" ["x", "y"])
      (ArgsReachable.ofArgv "p" ["x", "y"])),
   spec_c8_invariant.2 (args.ofArgv "p" ["x", "y"]) _
     (ArgsStep.shift (args.ofArgv "p" ["x", "y"]))⟩

/-- C10: every child cursor produced by `subarg`, `subarg_until`, `subcmd`
or `subcmd_until` carries the default `std::cerr` log sink, never the
parent's custom sink: the slicing operations build the child with the
default constructor and never copy the parent's `_log`. -/
theorem spec_c10_child_log (a : args) (i : Nat)
    (hlog : a._log = LogSink.custom i) (n : Nat) (p : String → Bool) :
    (∀ c, (subargImpl a n).1 = .ok c →
       c._log = LogSink.cerr ∧ c._log ≠ a._log)
    ∧ ((subargUntilImpl a p).1._log = LogSink.cerr
       ∧ (subargUntilImpl a p).1._log ≠ a._log)
    ∧ (∀ c, (subcmdImpl a n).1 = .ok c →
       c._log = LogSink.cerr ∧ c._log ≠ a._log)
    ∧ (∀ c, (subcmdUntilImpl a p).1 = .ok c →
       c._log = LogSink.cerr ∧ c._log ≠ a._log) := by
  refine ⟨?_, ?_, ?_, ?_⟩
  · intro c hc
    rw [lem_subarg_child a n c hc, hlog]
    exact ⟨rfl, by simp⟩
  · rw [lem_subarg_until_child a p, hlog]
    exact ⟨rfl, by simp⟩
  · intro c hc
    rw [(lem_subcmd_child a n c hc).2.1, hlog]
    exact ⟨rfl, by simp⟩
  · intro c hc
    rw [(lem_subcmd_until_child a p c hc).2.1, hlog]
    exact ⟨rfl, by simp⟩

/-- C10 witness: a parent with a custom log sink sliced by
`subarg_until`; the child's sink is the default `std::cerr`. -/
theorem spec_c10_witness :
    (subargUntilImpl ((args.ofArgv "p" ["s"]).set_log (LogSink.custom 7))
        (fun _ => false)).1._log = LogSink.cerr
    ∧ (subargUntilImpl ((args.ofArgv "p" ["s"]).set_log (LogSink.custom 7))
        (fun _ => false)).1._log ≠
        ((args.ofArgv "p" ["s"]).set_log (LogSink.custom 7))._log :=
  (spec_c10_child_log ((args.ofArgv "p" ["s"]).set_log (LogSink.custom 7)) 7
    rfl 0 (fun _ => false)).2.1

/-- C2 counterexample: the claim says a failed conversion leaves the
target unmodified.  On the cursor `["abc"]` with the target previously
holding 42, the extraction fails, logs the token, returns normally — but
the target is overwritten with 0 (C++11 stream extraction writes zero on
failure), so its value before the call differs from its value after. -/
theorem spec_c2_counterexample :
    (extractIntImpl (args.ofArgv "p" ["abc"]) 42).1 = Except.ok ()
    ∧ (extractIntImpl (args.ofArgv "p" ["abc"]) 42).2.2.2 =
        ["Error: could not parse abc.\n"]
    ∧ (extractIntImpl (args.ofArgv "p" ["abc"]) 42).2.2.1 = 0
    ∧ (0 : Int) ≠ 42 :=
  ⟨rfl, rfl, rfl, by decide⟩

/-- C2 amended: when the next token admits no integer parse, the typed
extraction logs `"Error: could not parse <token>.\n"`, returns normally,
advances the cursor by one — and sets the target to 0 (the value a failed
C++11 stream extraction writes), rather than leaving it unmodified. -/
theorem spec_c2_amended (a : args) (t : Int) (tok : String)
    (hp : a.peek = .ok tok) (hf : readIntFrom tok.data = none) :
    extractIntImpl a t =
      (.ok (), { a with _index := a._index + 1 }, 0,
       ["Error: could not parse " ++ tok ++ ".\n"]) :=
  lem_extract_fail_eq a t tok hp hf

/-- C2 witness: the amended theorem instantiated on the cursor `["abc"]`
with prior target value 42. -/
theorem spec_c2_witness :
    extractIntImpl (args.ofArgv "p" ["abc"]) 42 =
      (.ok (), ⟨["abc"], "p", 1, LogSink.cerr⟩, 0,
       ["Error: could not parse abc.\n"]) :=
  spec_c2_amended (args.ofArgv "p" ["abc"]) 42 "abc" rfl rfl

/-- C9: when the next token parses to an integer but leaves trailing
characters, the parsed prefix value is assigned to the target and a
warning naming the unparsed suffix is logged. -/
theorem spec_c9_trailing (a : args) (t : Int) (tok : String) (v : Int)
    (k : Nat) (hp : a.peek = .ok tok)
    (hr : readIntFrom tok.data = some (v, k)) (hk : k < tok.length) :
    extractIntImpl a t =
      (.ok (), { a with _index := a._index + 1 }, v,
       ["Warning: partially parsed string\nUnparsed bit: \x27"
         ++ (tok.data.drop k).asString ++ "\x27\n"]) := by
  rw [lem_extract_some_eq a t tok v k hp hr, if_neg (by omega)]

/-- C9 witness: token "12extra" parses to 12 with unparsed suffix
"extra". -/
theorem spec_c9_witness :
    extractIntImpl (args.ofArgv "p" ["12extra"]) 0 =
      (.ok (), ⟨["12extra"], "p", 1, LogSink.cerr⟩, 12,
       ["Warning: partially parsed string\nUnparsed bit: \x27extra\x27\n"]) :=
  spec_c9_trailing (args.ofArgv "p" ["12extra"]) 0 "12extra" 12 2
    rfl rfl (by decide)

/-- C4 counterexample: the claim says `range(2.5, 14.7)` validates against
the bounds exactly as supplied.  In the code the `RangeParse`
constructor takes `long long` parameters, so the stored bounds are the
truncations 2 and 14; consequently the parsed value 2, although smaller
than 2.5, triggers no lower-bound message. -/
theorem spec_c4_counterexample :
    args.range2 (2.5 : ℚ) (14.7 : ℚ) = ⟨2, 14⟩
    ∧ ((args.range2 (2.5 : ℚ) (14.7 : ℚ)).min : ℚ) ≠ (2.5 : ℚ)
    ∧ ((args.range2 (2.5 : ℚ) (14.7 : ℚ)).max : ℚ) ≠ (14.7 : ℚ)
    ∧ (rangedExtractImpl (args.range2 (2.5 : ℚ) (14.7 : ℚ))
        (args.ofArgv "p" ["2"]) 0).2.2.1 = 2
    ∧ (rangedExtractImpl (args.range2 (2.5 : ℚ) (14.7 : ℚ))
        (args.ofArgv "p" ["2"]) 0).2.2.2 = []
    ∧ (2 : ℚ) < (2.5 : ℚ) := by
  have h25 : (2.5 : ℚ) = mkRat 5 2 := by norm_num
  have h147 : (14.7 : ℚ) = mkRat 147 10 := by norm_num
  have hr : args.range2 (2.5 : ℚ) (14.7 : ℚ) = ⟨2, 14⟩ := by
    unfold args.range2
    rw [h25, h147]
    decide
  refine ⟨hr, ?_, ?_, by rw [hr]; rfl, by rw [hr]; rfl, by norm_num⟩
  · rw [hr]; norm_num
  · rw [hr]; norm_num

/-- C4 amended: the bounds stored by `range(min)` / `range(min, max)` are
the supplied values truncated toward zero to integers (the `double` →
`long long` conversion at the `RangeParse` constructor), and the
range-checked extraction validates the parsed value against exactly those
truncated bounds. -/
theorem spec_c4_amended (qmin qmax : ℚ) (a : args) (t : Int)
    (hs : 1 ≤ a.size) :
    (args.range2 qmin qmax).min = truncQ qmin
    ∧ (args.range2 qmin qmax).max = truncQ qmax
    ∧ (args.range1 qmin).min = truncQ qmin
    ∧ (args.range1 qmin).max = truncQ qmin
    ∧ rangedExtractImpl (args.range2 qmin qmax) a t =
        (.ok (), (extractIntImpl a t).2.1, (extractIntImpl a t).2.2.1,
         (extractIntImpl a t).2.2.2
         ++ (if (extractIntImpl a t).2.2.1 < truncQ qmin then
               [rangedErrorHead a ++ " must be greater than "
                 ++ toString (truncQ qmin) ++ ".\n"]
             else [])
         ++ (if truncQ qmin < truncQ qmax
               ∧ truncQ qmax < (extractIntImpl a t).2.2.1 then
               [rangedErrorHead a ++ " must be smaller than "
                 ++ toString (truncQ qmax) ++ ".\n"]
             else [])) :=
  ⟨rfl, rfl, rfl, rfl, lem_ranged_eq (args.range2 qmin qmax) a t hs⟩

/-- C4 witness: the stored-bound equations instantiated at the supplied
bounds 2.5 and 14.7. -/
theorem spec_c4_witness :
    (args.range2 (2.5 : ℚ) (14.7 : ℚ)).min = truncQ (2.5 : ℚ)
    ∧ (args.range2 (2.5 : ℚ) (14.7 : ℚ)).max = truncQ (14.7 : ℚ) :=
  ⟨(spec_c4_amended (2.5 : ℚ) (14.7 : ℚ) (args.ofArgv "p" ["2"]) 0
      (by decide)).1,
   (spec_c4_amended (2.5 : ℚ) (14.7 : ℚ) (args.ofArgv "p" ["2"]) 0
      (by decide)).2.1⟩

/-- C5 counterexample: with bounds `range(10, 5)` we have `min ≠ max` and
the parsed value 20 exceeds `max = 5`, yet no "must be smaller than"
message (indeed no message at all) is logged, because the code's guard is
`min < max && max < n`, not `min != max`. -/
theorem spec_c5_counterexample :
    (args.range2 10 5).min ≠ (args.range2 10 5).max
    ∧ (args.range2 10 5).max <
        (rangedExtractImpl (args.range2 10 5) (args.ofArgv "p" ["20"]) 0).2.2.1
    ∧ (rangedExtractImpl (args.range2 10 5) (args.ofArgv "p" ["20"]) 0).2.2.2
        = [] :=
  ⟨by decide, by decide, rfl⟩

/-- C5 amended: the upper-bound message is logged exactly when
`min < max` and the parsed value exceeds `max` (so never when
`min > max`, although then `min ≠ max`); the lower-bound and upper-bound
checks are mutually exclusive — at most one range message can be logged
in a single call — and neither prevents the target from retaining the
parsed value. -/
theorem spec_c5_amended (r : RangeParse) (a : args) (t : Int)
    (hs : 1 ≤ a.size) :
    (rangedExtractImpl r a t).1 = .ok ()
    ∧ (rangedExtractImpl r a t).2.2.1 = (extractIntImpl a t).2.2.1
    ∧ (rangedExtractImpl r a t).2.2.2 =
        (extractIntImpl a t).2.2.2
        ++ (if (extractIntImpl a t).2.2.1 < r.min then
              [rangedErrorHead a ++ " must be greater than "
                ++ toString r.min ++ ".\n"]
            else [])
        ++ (if r.min < r.max ∧ r.max < (extractIntImpl a t).2.2.1 then
              [rangedErrorHead a ++ " must be smaller than "
                ++ toString r.max ++ ".\n"]
            else [])
    ∧ ¬((extractIntImpl a t).2.2.1 < r.min
        ∧ r.min < r.max ∧ r.max < (extractIntImpl a t).2.2.1) := by
  have h := lem_ranged_eq r a t hs
  refine ⟨by rw [h], by rw [h], by rw [h], ?_⟩
  rintro ⟨h1, h2, h3⟩
  omega

/-- C5 witness: the amended theorem instantiated at bounds
`range(10, 5)` and token "20". -/
theorem spec_c5_witness :
    (rangedExtractImpl (args.range2 10 5) (args.ofArgv "q" ["20"]) 0).1
      = .ok ()
    ∧ (rangedExtractImpl (args.range2 10 5) (args.ofArgv "q" ["20"]) 0).2.2.1
        = (extractIntImpl (args.ofArgv "q" ["20"]) 0).2.2.1
    ∧ (rangedExtractImpl (args.range2 10 5) (args.ofArgv "q" ["20"]) 0).2.2.2 =
        (extractIntImpl (args.ofArgv "q" ["20"]) 0).2.2.2
        ++ (if (extractIntImpl (args.ofArgv "q" ["20"]) 0).2.2.1
              < (args.range2 10 5).min then
              [rangedErrorHead (args.ofArgv "q" ["20"]) ++ " must be greater than "
                ++ toString (args.range2 10 5).min ++ ".\n"]
            else [])
        ++ (if (args.range2 10 5).min < (args.range2 10 5).max
              ∧ (args.range2 10 5).max
                < (extractIntImpl (args.ofArgv "q" ["20"]) 0).2.2.1 then
              [rangedErrorHead (args.ofArgv "q" ["20"]) ++ " must be smaller than "
                ++ toString (args.range2 10 5).max ++ ".\n"]
            else [])
    ∧ ¬((extractIntImpl (args.ofArgv "q" ["20"]) 0).2.2.1
          < (args.range2 10 5).min
        ∧ (args.range2 10 5).min < (args.range2 10 5).max
        ∧ (args.range2 10 5).max
            < (extractIntImpl (args.ofArgv "q" ["20"]) 0).2.2.1) :=
  spec_c5_amended (args.range2 10 5) (args.ofArgv "q" ["20"]) 0 (by decide)

/-- C6 counterexample: on the fresh cursor `["1"]` the token just consumed
by the extraction counts against the post-consume remaining count (0 < 1),
so by the claim the prefix should be based on a token rather than generic;
the code nevertheless produces the generic "number" prefix, because it
evaluates the condition before consuming. -/
theorem spec_c6_counterexample :
    (rangedExtractImpl (args.range1 2) (args.ofArgv "p" ["1"]) 0).2.2.2 =
      ["Error: number must be greater than 2.\n"]
    ∧ ((rangedExtractImpl (args.range1 2) (args.ofArgv "p" ["1"]) 0).2.1).size
        < ((rangedExtractImpl (args.range1 2) (args.ofArgv "p" ["1"]) 0).2.1).total_size
    ∧ "Error: number must be greater than 2.\n" ≠
        "Error: argument to 1 must be greater than 2.\n" :=
  ⟨rfl, by decide, by decide⟩

/-- C6 amended: the diagnostic prefix is chosen from the cursor state
*before* the extraction consumes its token: if at least one token had
already been consumed before the call (`size() < total_size()` pre-call,
i.e. `_index > 0`), the prefix names `peek(-1)` at the pre-call position —
the token immediately preceding the one about to be consumed — otherwise
the generic "number" prefix is used; every range message produced by the
call starts with that prefix. -/
theorem spec_c6_amended (a : args) (h : argsInv a)
    (hlen : a._args.length < 2 ^ 64) :
    (a._index = 0 → rangedErrorHead a = "Error: number")
    ∧ (∀ k : Nat, a._index = k + 1 →
        rangedErrorHead a = "Error: argument to " ++ a._args.getD k "")
    ∧ ∀ (r : RangeParse) (t : Int), 1 ≤ a.size →
        ∀ m ∈ (rangedExtractImpl r a t).2.2.2.drop
            ((extractIntImpl a t).2.2.2).length,
          ∃ s, m = rangedErrorHead a ++ s := by
  refine ⟨fun h0 => lem_head_zero a h0,
          fun k hk => lem_head_pos a h hlen k hk, ?_⟩
  intro r t hs m hm
  rw [lem_ranged_eq r a t hs] at hm
  dsimp only at hm
  rw [List.append_assoc, List.drop_left] at hm
  rcases List.mem_append.1 hm with hx | hy
  · by_cases h1 : (extractIntImpl a t).2.2.1 < r.min
    · rw [if_pos h1] at hx
      simp at hx
      refine ⟨" must be greater than " ++ (toString r.min ++ ".
"), ?_⟩
      rw [hx]
      simp [String.append_assoc]
    · rw [if_neg h1] at hx
      simp at hx
  · by_cases h2 : r.min < r.max ∧ r.max < (extractIntImpl a t).2.2.1
    · rw [if_pos h2] at hy
      simp at hy
      refine ⟨" must be smaller than " ++ (toString r.max ++ ".
"), ?_⟩
      rw [hy]
      simp [String.append_assoc]
    · rw [if_neg h2] at hy
      simp at hy

/-- C6 witness: a cursor that has already consumed one token ("--val"):
the prefix names that preceding token. -/
theorem spec_c6_witness :
    rangedErrorHead (⟨["--val", "20"], "p", 1, LogSink.cerr⟩ : args) =
      "Error: argument to " ++
        (["--val", "20"] : List String).getD 0 "" :=
  (spec_c6_amended ⟨["--val", "20"], "p", 1, LogSink.cerr⟩
    (by unfold argsInv; decide) (by decide)).2.1 0 rfl
